import Mathlib

/-!
Shallow embedding of the duplicateScanner repository
(src/duplicateTracker.c, src/duplicateScanner.c, src/duplicateTracker.h)
and proofs about its specification claims.

Modelling conventions:
* C strings are `List Nat` of byte values; the terminating NUL is not part
  of the list except where a buffer is modelled explicitly (see `hashLoop`).
* `long` is the 64-bit signed integer of the target platform; arithmetic
  wraps two's-complement, modelled as `Nat` arithmetic `% 2^64` on bit
  patterns plus an explicit signed reinterpretation (`toSigned`).
* C `%` on signed integers is truncated remainder, i.e. `Int.tmod`.
* `malloc`/`calloc` are modelled as always succeeding; the only failure
  paths kept are the ones the code itself tests and returns (the NULL
  `fileTable` check in `insertNode`, for example).
* The process-wide statics `fileTable`/`fileCount` become an explicit
  `Registry` value threaded through the operations; `time_t` timestamps
  are `Int`, and `difftime(a, b)` is the exact difference `a - b`.
-/

/-- Byte strings: the contents of a C string, NUL excluded. -/
abbrev Str := List Nat

/-- `#define TBL_SIZE 512000` (duplicateTracker.c). -/
def TBL_SIZE : Nat := 512000

/-- `#define FNV_PRIME 16777619` (duplicateTracker.c). -/
def FNV_PRIME : Nat := 16777619

/-- `#define FNV_OFFSET 2166136261` (duplicateTracker.c). -/
def FNV_OFFSET : Nat := 2166136261

/-- `#define MAX_PATH 4096` (duplicateTracker.h). -/
def MAX_PATH : Nat := 4096

/-- Sign extension of a `char` byte to a 64-bit pattern: on the target,
`char` is signed, so bytes ≥ 128 sign-extend, giving the bit pattern
`2^64 - 256 + c`. -/
def signExtByte (c : Nat) : Nat :=
  if c < 128 then c else (2 ^ 64 - 256) + c

/-- One iteration of the loop body in `hash` (duplicateTracker.c lines
106-107): `hash = hash ^ (*key); hash *= FNV_PRIME;` on a 64-bit `long`,
wrapping two's-complement. -/
def hashStep (h c : Nat) : Nat :=
  ((h ^^^ signExtByte c) * FNV_PRIME) % 2 ^ 64

/-- The accumulated FNV-1a state after consuming a list of bytes.
For a nonempty byte list this is what the do-while loop of `hash`
computes (see `hashLoop` for the buffer-level model of the loop). -/
def fnvList : Nat → Str → Nat
  | h, [] => h
  | h, c :: rest => fnvList (hashStep h c) rest

/-- Reinterpret a 64-bit pattern as a signed 64-bit value. -/
def toSigned (v : Nat) : Int :=
  if v < 2 ^ 63 then (v : Int) else (v : Int) - 2 ^ 64

/-- `hash %= TBL_SIZE; return hash < 0 ? -hash : hash;`
(duplicateTracker.c lines 110-111): truncated remainder then absolute
value. -/
def foldToRange (h : Int) : Int :=
  if Int.tmod h (TBL_SIZE : Int) < 0 then -Int.tmod h (TBL_SIZE : Int)
  else Int.tmod h (TBL_SIZE : Int)

/-- `long hash (const char *key)` (duplicateTracker.c lines 102-112), on
the abstract byte string of the key. (`hash` itself is taken by the
`Hashable` class, hence the `C` suffix.) Valid for nonempty keys, where
the do-while loop equals the fold; see `hashLoop_ok_of_wf`. -/
def hashC (key : Str) : Int :=
  foldToRange (toSigned (fnvList FNV_OFFSET key))

/-- The bucket index produced by `hash`, as a `Nat`. -/
def hashIdx (key : Str) : Nat :=
  (hashC key).toNat

/-- Outcome of running the do-while loop of `hash` against an explicit
buffer: either the final FNV accumulator, or the offset of the first read
that falls outside the buffer. -/
inductive HashRun where
  | ok (h : Nat)
  | oobRead (i : Nat)
deriving DecidableEq, Repr

/-- Buffer-level model of the do-while loop of `hash` (duplicateTracker.c
lines 105-108). The third argument is the buffer suffix the key pointer
points at, `i` is the pointer's offset into the buffer. The body reads
`*key` unconditionally (out of bounds when the suffix is empty), then the
guard reads `*++key` (out of bounds when the suffix has a single byte
left). -/
def hashLoop (h : Nat) (i : Nat) : Str → HashRun
  | [] => HashRun.oobRead i
  | c :: rest =>
    match rest with
    | [] => HashRun.oobRead (i + 1)
    | c2 :: rest2 =>
      if c2 = 0 then HashRun.ok (hashStep h c)
      else hashLoop (hashStep h c) (i + 1) (c2 :: rest2)

/-- Run the `hash` do-while loop on a whole buffer (key pointer at offset
0, accumulator at `FNV_OFFSET`). -/
def hashBuffer (buffer : Str) : HashRun :=
  hashLoop FNV_OFFSET 0 buffer

/-- `static char *fileName (char *filePath)` (duplicateTracker.c lines
73-87): the suffix after the last `'/'` (byte 47); the whole string when
it holds no separator. (The `filePath == NULL` branch returning `"NUll"`
has no counterpart: paths are always present here.) -/
def fileName : Str → Str
  | [] => []
  | c :: rest => if c = 47 ∨ 47 ∈ rest then fileName rest else c :: rest

/-- `struct file` / list node payload (duplicateTracker.c lines 23-32):
a stored file path and its modification time. -/
structure File where
  filePath : Str
  modified : Int
deriving DecidableEq, Repr

/-- The process-wide registry state: `static struct node **fileTable`
(NULL when unallocated, hence `Option`) with each bucket's chain as a
list, and `static long fileCount` (duplicateTracker.c lines 121-124). -/
structure Registry where
  fileTable : Option (Nat → List File)
  fileCount : Int

/-- The state of the statics at program start: `fileTable` is NULL and
`fileCount` is 0. -/
def initState : Registry :=
  { fileTable := none, fileCount := 0 }

/-- `static struct node *newNode` (duplicateTracker.c lines 41-60):
builds the record; `strncpy(..., MAX_PATH)` stores at most `MAX_PATH`
bytes of the path. Allocation is modelled as succeeding. -/
def newNode (filePath : Str) (modified : Int) : File :=
  { filePath := filePath.take MAX_PATH, modified := modified }

/-- The for-loop of `insertNode` (duplicateTracker.c lines 149-155):
walk past every node `next` with `difftime(n, next) <= 0`, then splice
`n` in before the first strictly older node (or at the end). -/
def insertAfterHead (n : File) : List File → List File
  | [] => [n]
  | next :: rest =>
    if n.modified - next.modified ≤ 0 then next :: insertAfterHead n rest
    else n :: next :: rest

/-- The chain-level logic of `insertNode` (duplicateTracker.c lines
139-155): a new node goes at the head when the chain is empty or the node
is strictly newer than the head; otherwise the for-loop splices it in
after the head. -/
def insertChain (n : File) : List File → List File
  | [] => [n]
  | head :: rest =>
    if n.modified - head.modified > 0 then n :: head :: rest
    else head :: insertAfterHead n rest

/-- `static int insertNode (struct node *n)` (duplicateTracker.c lines
127-158): error 1 when `fileTable` is NULL (before `fileCount++`),
otherwise increments the count and splices the node into the bucket
selected by `hash(fileName(n->file.filePath))`. -/
def insertNode (s : Registry) (n : File) : Registry × Int :=
  match s.fileTable with
  | none => (s, 1)
  | some t =>
    let index := hashIdx (fileName n.filePath)
    ({ fileTable := some fun j => if j = index then insertChain n (t index) else t j,
       fileCount := s.fileCount + 1 }, 0)

/-- `int trackFile (const char *fileName, const time_t modified)`
(duplicateTracker.c lines 197-207): allocates the node and inserts it.
The allocation-failure return (modelled as never occurring) is omitted. -/
def trackFile (s : Registry) (filePath : Str) (modified : Int) : Registry × Int :=
  insertNode s (newNode filePath modified)

/-- `int initializeFileTable (void)` (duplicateTracker.c lines 210-217):
`calloc` a table whose buckets are all empty. `fileCount` is NOT touched.
The allocation-failure return (modelled as never occurring) is omitted. -/
def initializeFileTable (s : Registry) : Registry × Int :=
  ({ s with fileTable := some fun _ => [] }, 0)

/-- `int freeFileTable (void)` (duplicateTracker.c lines 257-274):
error 1 when the table is already NULL; otherwise releases everything and
NULLs the pointer. `fileCount` is not touched. -/
def freeFileTable (s : Registry) : Registry × Int :=
  match s.fileTable with
  | none => (s, 1)
  | some _ => ({ s with fileTable := none }, 0)

/-- `long getFileCount (void)` (duplicateTracker.c lines 252-254). -/
def getFileCount (s : Registry) : Int :=
  s.fileCount

/-- The observable outcome of `findFile` (duplicateTracker.c lines
235-249): the "File Table is uninitialized!" error on stderr, the
"Sorry, no match found!" message, or the printed bucket chain. -/
inductive FindResult where
  | notInitialized
  | noMatch
  | found (chain : List File)
deriving DecidableEq, Repr

/-- `void findFile (const char *fileName)` (duplicateTracker.c lines
235-249): error when the table is NULL; otherwise hash the searched name
directly (no base-name stripping here) and report the bucket's chain, or
no-match when it is empty. -/
def findFile (s : Registry) (fileName : Str) : FindResult :=
  match s.fileTable with
  | none => FindResult.notInitialized
  | some t =>
    if t (hashIdx fileName) = [] then FindResult.noMatch
    else FindResult.found (t (hashIdx fileName))

/-- A freshly initialized registry: `initializeFileTable` run on the
program-start state. -/
def freshRegistry : Registry :=
  (initializeFileTable initState).1

/-- A sequence of `trackFile` (register) operations, applied in order. -/
def registerAll (ops : List (Str × Int)) (s : Registry) : Registry :=
  ops.foldl (fun s op => (trackFile s op.1 op.2).1) s

/-- The chain stored in bucket `i` (empty when the table is NULL). -/
def bucketOf (s : Registry) (i : Nat) : List File :=
  match s.fileTable with
  | none => []
  | some t => t i

/-- A chain is ordered by descending `modified` (newest first, ties
adjacent in either order). -/
def chainSorted (l : List File) : Prop :=
  List.Chain' (fun a b => b.modified ≤ a.modified) l

/-- Every bucket chain of the registry is ordered newest-first. -/
def allChainsSorted (s : Registry) : Prop :=
  ∀ i, chainSorted (bucketOf s i)

mutual

/-- A filesystem tree, as `stat`/`readdir` present it to the scanner:
a regular file with its `st_mtime`, a directory with its sequence of
named entries (in the order the directory stream yields them), or a path
whose metadata cannot be obtained (`stat` returns -1). -/
inductive FSTree where
  | file (mtime : Int)
  | dir (entries : FSEntries)
  | inaccessible

/-- The entry stream of a directory: each entry is its name (what
`readDirectoryEntry` yields in `d_name`) and the tree behind it. -/
inductive FSEntries where
  | nil
  | cons (name : Str) (node : FSTree) (rest : FSEntries)

end

/-- The diagnostics `scanFile`/`scanDirectory` write to stderr
(duplicateScanner.c lines 106, 119, 148). -/
inductive ScanError where
  | accessError (path : Str)
  | trackError
  | pathTooLong (name : Str)
deriving DecidableEq, Repr

/-- Scanner-visible state: the registry plus the stderr diagnostics
emitted so far, in order. -/
structure ScanState where
  reg : Registry
  errors : List ScanError

mutual

/-- `void scanFile (const char *fileName)` (duplicateScanner.c lines
101-122): `stat` failure is reported and the path skipped; a directory is
walked via `scanDirectory`; anything else is registered with `trackFile`,
a registration failure being reported and ignored. (The tree node stands
for what the filesystem holds at `pathName`.) -/
def scanFile (node : FSTree) (pathName : Str) (s : ScanState) : ScanState :=
  match node with
  | FSTree.inaccessible =>
    { s with errors := s.errors ++ [ScanError.accessError pathName] }
  | FSTree.file mtime =>
    match trackFile s.reg pathName mtime with
    | (reg2, r) =>
      if r = 0 then { s with reg := reg2 }
      else { reg := reg2, errors := s.errors ++ [ScanError.trackError] }
  | FSTree.dir entries => scanDirectory entries pathName s

/-- `void scanDirectory (const char *directoryName, void (*f)(...))`
(duplicateScanner.c lines 125-157), iterating the entry stream: `"."` and
`".."` are skipped; an entry whose constructed path would overflow the
`MAX_PATH` buffer (`strlen(dir) + strlen(name) + 2 > MAX_PATH`) gets a
path-too-long report and is skipped; every other entry is scanned at
`directoryName ++ "/" ++ name`. -/
def scanDirectory (entries : FSEntries) (directoryName : Str)
    (s : ScanState) : ScanState :=
  match entries with
  | FSEntries.nil => s
  | FSEntries.cons name node rest =>
    if name = [46] ∨ name = [46, 46] then scanDirectory rest directoryName s
    else if directoryName.length + name.length + 2 > MAX_PATH then
      scanDirectory rest directoryName
        { s with errors := s.errors ++ [ScanError.pathTooLong name] }
    else
      scanDirectory rest directoryName
        (scanFile node (directoryName ++ [47] ++ name) s)

end

/-- The scanner's state right after `initializeFileTable` succeeds in
`main` (duplicateScanner.c line 170): fresh registry, no diagnostics. -/
def freshScanState : ScanState :=
  { reg := freshRegistry, errors := [] }

/-!  Theorems.  -/

/-- Transitivity of the newest-first chain order. -/
instance : IsTrans File (fun a b => b.modified ≤ a.modified) :=
  ⟨fun _ _ _ h1 h2 => le_trans h2 h1⟩

/-- On a well-formed C string buffer — a nonempty key with no interior
NUL, followed by the terminator — the loop of `hash` stays in bounds and
computes the FNV fold of the key bytes. -/
theorem hashLoop_ok_of_wf (key : Str) (h i : Nat) (hne : key ≠ [])
    (hnz : ∀ c ∈ key, c ≠ 0) :
    hashLoop h i (key ++ [0]) = HashRun.ok (fnvList h key) := by
  induction key generalizing h i with
  | nil => exact absurd rfl hne
  | cons a t ih =>
    cases t with
    | nil => simp [hashLoop, fnvList]
    | cons b t2 =>
      have hb : b ≠ 0 := hnz b (by simp)
      have : hashLoop h i ((a :: b :: t2) ++ [0])
          = hashLoop (hashStep h a) (i + 1) ((b :: t2) ++ [0]) := by
        simp [hashLoop, hb]
      rw [this, ih (hashStep h a) (i + 1) (by simp)
        (fun c hc => hnz c (List.mem_cons_of_mem a hc))]
      simp [fnvList]

/-- Bounds for the absolute value of the truncated remainder taken by
`foldToRange`. -/
theorem foldToRange_bounds (h : Int) :
    0 ≤ foldToRange h ∧ foldToRange h < (TBL_SIZE : Int) := by
  have hb : -(TBL_SIZE : Int) < Int.tmod h (TBL_SIZE : Int) ∧
      Int.tmod h (TBL_SIZE : Int) < (TBL_SIZE : Int) := by
    cases h with
    | ofNat m =>
      have e : Int.tmod (Int.ofNat m) (TBL_SIZE : Int)
          = ((m % TBL_SIZE : Nat) : Int) := rfl
      have hm : m % TBL_SIZE < TBL_SIZE := Nat.mod_lt _ (by decide)
      rw [e]
      omega
    | negSucc m =>
      have e : Int.tmod (Int.negSucc m) (TBL_SIZE : Int)
          = -(((m + 1) % TBL_SIZE : Nat) : Int) := rfl
      have hm : (m + 1) % TBL_SIZE < TBL_SIZE := Nat.mod_lt _ (by decide)
      rw [e]
      omega
  unfold foldToRange
  split <;> omega

/-- C4: for every valid (nonempty, NUL-terminated) filename, `hash` is
deterministic and its result lies in `[0, TBL_SIZE)` with
`TBL_SIZE = 512000`, the fold into range being the absolute value of the
truncated remainder of the FNV-1a value. -/
theorem hash_deterministic_and_in_range (key key2 : Str) (hne : key ≠ [])
    (hvalid : ∀ c ∈ key, 0 < c ∧ c < 256) :
    (key = key2 → hashC key = hashC key2) ∧
      0 ≤ hashC key ∧ hashC key < 512000 := by
  refine ⟨fun he => by rw [he], ?_, ?_⟩
  · exact (foldToRange_bounds _).1
  · have := (foldToRange_bounds (toSigned (fnvList FNV_OFFSET key))).2
    simpa [hashC, TBL_SIZE] using this

/-- Witness for C4 at the one-byte filename "a". -/
theorem hash_deterministic_and_in_range_witness :
    (([97] : Str) ≠ [] ∧ ∀ c ∈ ([97] : Str), 0 < c ∧ c < 256) ∧
      ((([97] : Str) = [97] → hashC [97] = hashC [97]) ∧
        0 ≤ hashC [97] ∧ hashC [97] < 512000) :=
  ⟨⟨by decide, by decide⟩,
    hash_deterministic_and_in_range [97] [97] (by decide) (by decide)⟩

/-- C10: the do-while loop of `hash` reads the first byte before testing
the terminator, so it stays inside the buffer exactly under the
precondition that the key is a nonempty NUL-terminated string; on the
buffer of the empty string (a single NUL byte, valid offset 0 only) it
attempts a read at offset 1, one byte past the end. -/
theorem hash_oob_on_empty_string (key : Str) (hne : key ≠ [])
    (hnz : ∀ c ∈ key, c ≠ 0) :
    hashBuffer (key ++ [0]) = HashRun.ok (fnvList FNV_OFFSET key) ∧
      hashBuffer [0] = HashRun.oobRead 1 := by
  exact ⟨hashLoop_ok_of_wf key FNV_OFFSET 0 hne hnz, rfl⟩

/-- Witness for C10 at the one-byte key "a". -/
theorem hash_oob_on_empty_string_witness :
    (([97] : Str) ≠ [] ∧ ∀ c ∈ ([97] : Str), c ≠ 0) ∧
      (hashBuffer ([97] ++ [0]) = HashRun.ok (fnvList FNV_OFFSET [97]) ∧
        hashBuffer [0] = HashRun.oobRead 1) :=
  ⟨⟨by decide, by decide⟩,
    hash_oob_on_empty_string [97] (by decide) (by decide)⟩


/-- The for-loop splice of `insertNode` preserves the newest-first chain
order, and the head of its result is either the new node or the old
head. -/
theorem insertAfterHead_chain (n : File) :
    ∀ l : List File, List.Chain' (fun a b => b.modified ≤ a.modified) l →
      List.Chain' (fun a b => b.modified ≤ a.modified) (insertAfterHead n l) ∧
      ∀ y, (insertAfterHead n l).head? = some y → y = n ∨ l.head? = some y := by
  intro l
  induction l with
  | nil =>
    intro _
    refine ⟨by simp [insertAfterHead], ?_⟩
    intro y hy
    simp [insertAfterHead] at hy
    exact Or.inl hy.symm
  | cons next rest ih =>
    intro hch
    obtain ⟨hhead, hrest⟩ := List.chain'_cons'.mp hch
    simp only [insertAfterHead]
    by_cases hc : n.modified - next.modified ≤ 0
    · rw [if_pos hc]
      obtain ⟨ih1, ih2⟩ := ih hrest
      constructor
      · refine List.chain'_cons'.mpr ⟨?_, ih1⟩
        intro y hy
        rcases ih2 y hy with h2 | h2
        · rw [h2]
          exact show n.modified ≤ next.modified by omega
        · exact hhead y h2
      · intro y hy
        simp at hy
        exact Or.inr (by simp [hy])
    · rw [if_neg hc]
      constructor
      · refine List.chain'_cons'.mpr ⟨?_, hch⟩
        intro y hy
        simp at hy
        rw [← hy]
        exact show next.modified ≤ n.modified by omega
      · intro y hy
        simp at hy
        exact Or.inl hy.symm

/-- The full chain-insertion of `insertNode` preserves the newest-first
chain order. -/
theorem insertChain_sorted (n : File) (l : List File)
    (hl : List.Chain' (fun a b => b.modified ≤ a.modified) l) :
    List.Chain' (fun a b => b.modified ≤ a.modified) (insertChain n l) := by
  cases l with
  | nil => simp [insertChain]
  | cons head rest =>
    obtain ⟨hhead, hrest⟩ := List.chain'_cons'.mp hl
    simp only [insertChain]
    by_cases hc : n.modified - head.modified > 0
    · rw [if_pos hc]
      refine List.chain'_cons'.mpr ⟨?_, hl⟩
      intro y hy
      simp at hy
      rw [← hy]
      exact show head.modified ≤ n.modified by omega
    · rw [if_neg hc]
      obtain ⟨h1, h2⟩ := insertAfterHead_chain n rest hrest
      refine List.chain'_cons'.mpr ⟨?_, h1⟩
      intro y hy
      rcases h2 y hy with h3 | h3
      · rw [h3]
        exact show n.modified ≤ head.modified by omega
      · exact hhead y h3

/-- One `trackFile` keeps every bucket chain newest-first. -/
theorem trackFile_preserves_sorted (s : Registry) (p : Str) (m : Int)
    (hs : allChainsSorted s) : allChainsSorted (trackFile s p m).1 := by
  intro i
  cases h : s.fileTable with
  | none =>
    have hcb : (trackFile s p m).1 = s := by simp [trackFile, insertNode, h]
    rw [hcb]
    exact hs i
  | some t =>
    have hb : bucketOf (trackFile s p m).1 i
        = if i = hashIdx (fileName (newNode p m).filePath)
            then insertChain (newNode p m)
              (t (hashIdx (fileName (newNode p m).filePath)))
            else t i := by
      simp [trackFile, insertNode, h, bucketOf]
    rw [hb]
    by_cases hi : i = hashIdx (fileName (newNode p m).filePath)
    · rw [if_pos hi]
      refine insertChain_sorted _ _ ?_
      have := hs (hashIdx (fileName (newNode p m).filePath))
      simpa [bucketOf, h] using this
    · rw [if_neg hi]
      have := hs i
      simpa [bucketOf, h] using this

/-- A whole sequence of `trackFile` operations keeps every bucket chain
newest-first. -/
theorem registerAll_preserves_sorted (ops : List (Str × Int)) :
    ∀ s : Registry, allChainsSorted s → allChainsSorted (registerAll ops s) := by
  induction ops with
  | nil => intro s hs; simpa [registerAll] using hs
  | cons op rest ih =>
    intro s hs
    have hstep : registerAll (op :: rest) s
        = registerAll rest (trackFile s op.1 op.2).1 := rfl
    rw [hstep]
    exact ih _ (trackFile_preserves_sorted s op.1 op.2 hs)

/-- All buckets of a freshly initialized registry are (trivially)
newest-first. -/
theorem freshRegistry_sorted : allChainsSorted freshRegistry := by
  intro i
  simp [bucketOf, freshRegistry, initializeFileTable, chainSorted]

/-- C1: after any sequence of register operations on a freshly
initialized registry, every bucket chain is sorted by descending
`modified` (newest first); consequently a record with a strictly greater
timestamp always sits nearer the head: if position `j` holds a strictly
older record than position `k`, then `k < j` — in particular, for two
registrations with `t1 < t2`, in either insertion order, the t2-record
precedes the t1-record. -/
theorem registered_chains_newest_first (ops : List (Str × Int)) (i j k : Nat)
    (hj : j < (bucketOf (registerAll ops freshRegistry) i).length)
    (hk : k < (bucketOf (registerAll ops freshRegistry) i).length)
    (hlt : ((bucketOf (registerAll ops freshRegistry) i).get ⟨j, hj⟩).modified
      < ((bucketOf (registerAll ops freshRegistry) i).get ⟨k, hk⟩).modified) :
    chainSorted (bucketOf (registerAll ops freshRegistry) i) ∧ k < j := by
  have hsorted : chainSorted (bucketOf (registerAll ops freshRegistry) i) :=
    registerAll_preserves_sorted ops freshRegistry freshRegistry_sorted i
  refine ⟨hsorted, ?_⟩
  have hpw : List.Pairwise (fun a b => b.modified ≤ a.modified)
      (bucketOf (registerAll ops freshRegistry) i) :=
    List.chain'_iff_pairwise.mp hsorted
  have hget := List.pairwise_iff_get.mp hpw
  rcases Nat.lt_trichotomy j k with h | h | h
  · have := hget ⟨j, hj⟩ ⟨k, hk⟩ h
    omega
  · subst h
    exact absurd hlt (lt_irrefl _)
  · exact h

/-- Witness for C1: register timestamps 1 then 2 under the same base name
"a"; position 1 (the t=1 record) is strictly older than position 0 (the
t=2 record), and indeed 0 < 1. -/
theorem registered_chains_newest_first_witness :
    chainSorted (bucketOf
      (registerAll [([120, 47, 97], 1), ([121, 47, 97], 2)] freshRegistry)
      (hashIdx [97])) ∧ 0 < 1 :=
  registered_chains_newest_first [([120, 47, 97], 1), ([121, 47, 97], 2)]
    (hashIdx [97]) 1 0 (by decide) (by decide) (by decide)

/-- Counterexample to C2: register path "x/a" (t=5) and then "y/a" (t=5)
into the same bucket (base name "a"). The newly inserted equal-timestamp
record ends up at position 1, FARTHER from the head than the existing
record at position 0 — not nearer, as the claim states. -/
theorem tie_not_nearer_head_cex :
    bucketOf (registerAll [([120, 47, 97], 5), ([121, 47, 97], 5)] freshRegistry)
        (hashIdx [97])
      = [{ filePath := [120, 47, 97], modified := 5 },
         { filePath := [121, 47, 97], modified := 5 }] ∧
    (bucketOf (registerAll [([120, 47, 97], 5), ([121, 47, 97], 5)] freshRegistry)
        (hashIdx [97])).indexOf { filePath := [121, 47, 97], modified := 5 } = 1 ∧
    (bucketOf (registerAll [([120, 47, 97], 5), ([121, 47, 97], 5)] freshRegistry)
        (hashIdx [97])).indexOf { filePath := [120, 47, 97], modified := 5 } = 0 := by
  decide

/-- The for-loop splice of `insertNode`, as a list equation: the new
node lands immediately after the maximal prefix of records at least as
new as it, the strictly older records following. Holds for every chain,
sorted or not, because the loop stops at the first strictly older node. -/
theorem insertAfterHead_splice (n : File) :
    ∀ l : List File,
      insertAfterHead n l
        = l.takeWhile (fun x => decide (n.modified ≤ x.modified))
            ++ n :: l.dropWhile (fun x => decide (n.modified ≤ x.modified)) := by
  intro l
  induction l with
  | nil => simp [insertAfterHead]
  | cons a t ih =>
    simp only [insertAfterHead]
    by_cases hc : n.modified - a.modified ≤ 0
    · have hple : n.modified ≤ a.modified := by omega
      rw [if_pos hc]
      have h1 : List.takeWhile (fun x => decide (n.modified ≤ x.modified)) (a :: t)
          = a :: List.takeWhile (fun x => decide (n.modified ≤ x.modified)) t := by
        simp [List.takeWhile_cons, hple]
      have h2 : List.dropWhile (fun x => decide (n.modified ≤ x.modified)) (a :: t)
          = List.dropWhile (fun x => decide (n.modified ≤ x.modified)) t := by
        simp [List.dropWhile_cons, hple]
      rw [h1, h2, ih]
      simp
    · have hngt : ¬ n.modified ≤ a.modified := by omega
      rw [if_neg hc]
      have h1 : List.takeWhile (fun x => decide (n.modified ≤ x.modified)) (a :: t)
          = [] := by
        simp [List.takeWhile_cons, hngt]
      have h2 : List.dropWhile (fun x => decide (n.modified ≤ x.modified)) (a :: t)
          = a :: t := by
        simp [List.dropWhile_cons, hngt]
      rw [h1, h2]
      simp

/-- In a newest-first chain, every record at least as new as `n` — in
particular every record tying `n`'s timestamp — belongs to the prefix of
records the insertion loop walks past. -/
theorem mem_takeWhile_of_not_older (n : File) :
    ∀ l : List File, chainSorted l → ∀ x ∈ l, n.modified ≤ x.modified →
      x ∈ l.takeWhile (fun y => decide (n.modified ≤ y.modified)) := by
  intro l
  induction l with
  | nil =>
    intro _ x hx _
    simp at hx
  | cons a t ih =>
    intro hl x hx hxm
    obtain ⟨ha, ht⟩ := List.pairwise_cons.mp (List.chain'_iff_pairwise.mp hl)
    have hple : n.modified ≤ a.modified := by
      rcases List.mem_cons.mp hx with h | h
      · rw [← h]
        exact hxm
      · have := ha x h
        omega
    have h1 : List.takeWhile (fun y => decide (n.modified ≤ y.modified)) (a :: t)
        = a :: List.takeWhile (fun y => decide (n.modified ≤ y.modified)) t := by
      simp [List.takeWhile_cons, hple]
    rw [h1]
    rcases List.mem_cons.mp hx with h | h
    · rw [h]
      exact List.mem_cons_self _ _
    · exact List.mem_cons_of_mem _
        (ih (List.chain'_iff_pairwise.mpr ht) x h hxm)

/-- C2 (amended): when a new record's `modifiedTime` equals the timestamp
of one or more records already in its (newest-first) bucket chain, the
new record is placed AFTER the existing equal-timestamp records, nearer
the tail: the chain splits as the maximal prefix of records at least as
new as the new record, then the new record, then the strictly older
records — and every existing record tying the new record's timestamp
belongs to that prefix. Ties therefore preserve insertion order, the
earlier-inserted record nearer the head. -/
theorem tie_goes_after_existing (n : File) (l : List File)
    (hl : chainSorted l) :
    insertChain n l
      = l.takeWhile (fun x => decide (n.modified ≤ x.modified))
          ++ n :: l.dropWhile (fun x => decide (n.modified ≤ x.modified)) ∧
    ∀ x ∈ l, x.modified = n.modified →
      x ∈ l.takeWhile (fun x => decide (n.modified ≤ x.modified)) := by
  constructor
  · cases l with
    | nil => simp [insertChain]
    | cons head rest =>
      simp only [insertChain]
      by_cases hc : n.modified - head.modified > 0
      · have hngt : ¬ n.modified ≤ head.modified := by omega
        rw [if_pos hc]
        have h1 : List.takeWhile (fun x => decide (n.modified ≤ x.modified))
            (head :: rest) = [] := by
          simp [List.takeWhile_cons, hngt]
        have h2 : List.dropWhile (fun x => decide (n.modified ≤ x.modified))
            (head :: rest) = head :: rest := by
          simp [List.dropWhile_cons, hngt]
        rw [h1, h2]
        simp
      · have hple : n.modified ≤ head.modified := by omega
        rw [if_neg hc]
        have h1 : List.takeWhile (fun x => decide (n.modified ≤ x.modified))
            (head :: rest)
            = head :: List.takeWhile (fun x => decide (n.modified ≤ x.modified))
                rest := by
          simp [List.takeWhile_cons, hple]
        have h2 : List.dropWhile (fun x => decide (n.modified ≤ x.modified))
            (head :: rest)
            = List.dropWhile (fun x => decide (n.modified ≤ x.modified)) rest := by
          simp [List.dropWhile_cons, hple]
        rw [h1, h2, insertAfterHead_splice n rest]
        simp
  · intro x hx hxm
    exact mem_takeWhile_of_not_older n l hl x hx (by omega)

/-- Witness for the amended C2: inserting a t=5 record into the sorted
chain [t=7, t=5] — a tie among mixed timestamps — splices it after the
existing t=5 record. -/
theorem tie_goes_after_existing_witness :
    chainSorted [({ filePath := [98, 47, 97], modified := 7 } : File),
        { filePath := [120, 47, 97], modified := 5 }] ∧
    (insertChain { filePath := [121, 47, 97], modified := 5 }
        [({ filePath := [98, 47, 97], modified := 7 } : File),
         { filePath := [120, 47, 97], modified := 5 }]
      = [({ filePath := [98, 47, 97], modified := 7 } : File),
         { filePath := [120, 47, 97], modified := 5 }].takeWhile
          (fun x => decide
            (({ filePath := [121, 47, 97], modified := 5 } : File).modified
              ≤ x.modified))
        ++ { filePath := [121, 47, 97], modified := 5 }
          :: [({ filePath := [98, 47, 97], modified := 7 } : File),
              { filePath := [120, 47, 97], modified := 5 }].dropWhile
            (fun x => decide
              (({ filePath := [121, 47, 97], modified := 5 } : File).modified
                ≤ x.modified)) ∧
    ∀ x ∈ [({ filePath := [98, 47, 97], modified := 7 } : File),
        { filePath := [120, 47, 97], modified := 5 }],
      x.modified = ({ filePath := [121, 47, 97], modified := 5 } : File).modified →
        x ∈ [({ filePath := [98, 47, 97], modified := 7 } : File),
            { filePath := [120, 47, 97], modified := 5 }].takeWhile
          (fun x => decide
            (({ filePath := [121, 47, 97], modified := 5 } : File).modified
              ≤ x.modified))) :=
  ⟨by norm_num [chainSorted, List.chain'_cons],
    tie_goes_after_existing { filePath := [121, 47, 97], modified := 5 }
      [({ filePath := [98, 47, 97], modified := 7 } : File),
       { filePath := [120, 47, 97], modified := 5 }]
      (by norm_num [chainSorted, List.chain'_cons])⟩

/-- Counterexample to C3: register one file, tear down, re-initialize.
`getFileCount` returns 1, not 0 — `initializeFileTable` never resets
`fileCount`. -/
theorem teardown_initialize_count_cex :
    getFileCount ((initializeFileTable
        (freeFileTable (trackFile freshRegistry [97] 0).1).1).1) = 1 ∧
    getFileCount ((initializeFileTable
        (freeFileTable (trackFile freshRegistry [97] 0).1).1).1) ≠ 0 := by
  decide

/-- C3 (amended): `freeFileTable` followed by `initializeFileTable`
yields a registry in which every lookup reports no match (all prior
registrations are gone), but `count` keeps the value it had before the
teardown instead of returning 0. -/
theorem teardown_initialize_amended (s : Registry) (name : Str) :
    findFile (initializeFileTable (freeFileTable s).1).1 name
        = FindResult.noMatch ∧
    getFileCount (initializeFileTable (freeFileTable s).1).1
        = getFileCount s := by
  cases h : s.fileTable <;>
    simp [freeFileTable, initializeFileTable, findFile, getFileCount, h]

/-- Counts and table-presence after a sequence of registers into an
allocated table. -/
theorem registerAll_count (ops : List (Str × Int)) :
    ∀ s : Registry, s.fileTable.isSome →
      (registerAll ops s).fileCount = s.fileCount + (ops.length : Int) ∧
      (registerAll ops s).fileTable.isSome := by
  induction ops with
  | nil =>
    intro s hs
    refine ⟨by simp [registerAll], by simpa [registerAll] using hs⟩
  | cons op rest ih =>
    intro s hs
    obtain ⟨t, ht⟩ := Option.isSome_iff_exists.mp hs
    have hstep : registerAll (op :: rest) s
        = registerAll rest (trackFile s op.1 op.2).1 := rfl
    have h1 : (trackFile s op.1 op.2).1.fileCount = s.fileCount + 1 := by
      simp [trackFile, insertNode, ht]
    have h2 : (trackFile s op.1 op.2).1.fileTable.isSome := by
      simp [trackFile, insertNode, ht]
    obtain ⟨hA, hB⟩ := ih (trackFile s op.1 op.2).1 h2
    rw [hstep]
    refine ⟨?_, hB⟩
    rw [hA, h1]
    simp only [List.length_cons]
    push_cast
    omega

/-- C5: starting from a freshly initialized registry, after N successful
register operations with distinct paths, `getFileCount` returns exactly
N. -/
theorem count_after_distinct_registers (ops : List (Str × Int))
    (hdist : (ops.map Prod.fst).Nodup) :
    getFileCount (registerAll ops freshRegistry) = (ops.length : Int) := by
  have h := registerAll_count ops freshRegistry
    (by simp [freshRegistry, initializeFileTable])
  have h0 : freshRegistry.fileCount = 0 := rfl
  rw [getFileCount, h.1, h0]
  omega

/-- Witness for C5 at two distinct one-byte paths. -/
theorem count_after_distinct_registers_witness :
    (([([97], 0), ([98], 1)].map Prod.fst).Nodup) ∧
    getFileCount (registerAll [([97], 0), ([98], 1)] freshRegistry)
      = (([([97], 0), ([98], 1)] : List (Str × Int)).length : Int) :=
  ⟨by decide, count_after_distinct_registers [([97], 0), ([98], 1)] (by decide)⟩

/-- C6: registering before `initializeFileTable` has ever run (the
program-start state) or after `freeFileTable` has released the table
returns the nonzero error 1 and leaves the registry untouched; teardown
always leaves the table NULL. -/
theorem trackFile_requires_initialized (p : Str) (m : Int) (s : Registry) :
    (trackFile initState p m).2 = 1 ∧
    (trackFile initState p m).1 = initState ∧
    (freeFileTable s).1.fileTable = none ∧
    (trackFile (freeFileTable s).1 p m).2 = 1 ∧
    (trackFile (freeFileTable s).1 p m).1 = (freeFileTable s).1 := by
  have h1 : (freeFileTable s).1.fileTable = none := by
    cases h : s.fileTable <;> simp [freeFileTable, h]
  refine ⟨rfl, rfl, h1, ?_, ?_⟩ <;> simp [trackFile, insertNode, h1]

/-- C7: `findFile` on an initialized registry whose addressed bucket is
empty reports the no-match outcome, not the uninitialized error. -/
theorem findFile_empty_bucket (s : Registry) (t : Nat → List File) (name : Str)
    (ht : s.fileTable = some t) (hempty : t (hashIdx name) = []) :
    findFile s name = FindResult.noMatch ∧
      findFile s name ≠ FindResult.notInitialized := by
  constructor
  · simp [findFile, ht, hempty]
  · simp [findFile, ht, hempty]

/-- Witness for C7: the fresh registry and the name "a". -/
theorem findFile_empty_bucket_witness :
    (freshRegistry.fileTable = some (fun _ => []) ∧
      (fun _ => ([] : List File)) (hashIdx [97]) = []) ∧
    (findFile freshRegistry [97] = FindResult.noMatch ∧
      findFile freshRegistry [97] ≠ FindResult.notInitialized) :=
  ⟨⟨rfl, rfl⟩, findFile_empty_bucket freshRegistry (fun _ => []) [97] rfl rfl⟩

/-- C8: an entry whose metadata cannot be obtained is reported as an
access error and skipped — the scan of the remaining sibling entries
continues from the same state plus the one diagnostic — and concretely, a
directory holding two readable files and one inaccessible entry yields
exactly two registered files and exactly one access-error report, with
the scan completing. -/
theorem inaccessible_entry_reported_and_skipped (directoryName name : Str)
    (rest : FSEntries) (s : ScanState)
    (hname : ¬(name = [46] ∨ name = [46, 46]))
    (hlen : ¬(directoryName.length + name.length + 2 > MAX_PATH)) :
    scanDirectory (FSEntries.cons name FSTree.inaccessible rest) directoryName s
      = scanDirectory rest directoryName
          { s with errors := s.errors
              ++ [ScanError.accessError (directoryName ++ [47] ++ name)] } ∧
    getFileCount (scanFile (FSTree.dir (FSEntries.cons [97] (FSTree.file 100)
        (FSEntries.cons [98] FSTree.inaccessible
        (FSEntries.cons [99] (FSTree.file 200) FSEntries.nil)))) [100]
        freshScanState).reg = 2 ∧
    (scanFile (FSTree.dir (FSEntries.cons [97] (FSTree.file 100)
        (FSEntries.cons [98] FSTree.inaccessible
        (FSEntries.cons [99] (FSTree.file 200) FSEntries.nil)))) [100]
        freshScanState).errors
      = [ScanError.accessError [100, 47, 98]] := by
  refine ⟨?_, by decide, by decide⟩
  rw [scanDirectory.eq_def]
  simp only [hname, hlen, if_neg, if_false]
  rfl

/-- Witness for C8 at a concrete directory name, entry name and state. -/
theorem inaccessible_entry_reported_and_skipped_witness :
    (¬(([98] : Str) = [46] ∨ ([98] : Str) = [46, 46]) ∧
      ¬(([100] : Str).length + ([98] : Str).length + 2 > MAX_PATH)) ∧
    (scanDirectory (FSEntries.cons [98] FSTree.inaccessible FSEntries.nil)
        [100] freshScanState
      = scanDirectory FSEntries.nil [100]
          { freshScanState with errors := freshScanState.errors
              ++ [ScanError.accessError ([100] ++ [47] ++ [98])] } ∧
    getFileCount (scanFile (FSTree.dir (FSEntries.cons [97] (FSTree.file 100)
        (FSEntries.cons [98] FSTree.inaccessible
        (FSEntries.cons [99] (FSTree.file 200) FSEntries.nil)))) [100]
        freshScanState).reg = 2 ∧
    (scanFile (FSTree.dir (FSEntries.cons [97] (FSTree.file 100)
        (FSEntries.cons [98] FSTree.inaccessible
        (FSEntries.cons [99] (FSTree.file 200) FSEntries.nil)))) [100]
        freshScanState).errors
      = [ScanError.accessError [100, 47, 98]]) :=
  ⟨⟨by decide, by decide⟩,
    inaccessible_entry_reported_and_skipped [100] [98] FSEntries.nil
      freshScanState (by decide) (by decide)⟩

/-- C9: a directory entry (other than "." and "..") whose constructed
path `directoryName ++ "/" ++ name` would exceed `MAX_PATH` is reported
as path-too-long and skipped without being scanned, the scan continuing
with the remaining siblings; an entry whose constructed path fits is
recursively scanned at that constructed path. -/
theorem long_path_reported_and_skipped (directoryName name : Str)
    (node : FSTree) (rest : FSEntries) (s : ScanState)
    (hname : ¬(name = [46] ∨ name = [46, 46])) :
    (directoryName.length + name.length + 2 > MAX_PATH →
      scanDirectory (FSEntries.cons name node rest) directoryName s
        = scanDirectory rest directoryName
            { s with errors := s.errors ++ [ScanError.pathTooLong name] }) ∧
    (¬(directoryName.length + name.length + 2 > MAX_PATH) →
      scanDirectory (FSEntries.cons name node rest) directoryName s
        = scanDirectory rest directoryName
            (scanFile node (directoryName ++ [47] ++ name) s)) := by
  constructor
  · intro hlen
    rw [scanDirectory.eq_def]
    simp only [hname, hlen, if_neg, if_false, if_pos, if_true]
  · intro hlen
    rw [scanDirectory.eq_def]
    simp only [hname, hlen, if_neg, if_false]

/-- Witness for C9: a directory name of 4094 bytes makes the constructed
path of a one-byte entry name overflow `MAX_PATH` = 4096. -/
theorem long_path_reported_and_skipped_witness :
    (¬(([97] : Str) = [46] ∨ ([97] : Str) = [46, 46])) ∧
    ((List.replicate 4094 100 : Str).length + ([97] : Str).length + 2 > MAX_PATH →
      scanDirectory (FSEntries.cons [97] (FSTree.file 7) FSEntries.nil)
          (List.replicate 4094 100) freshScanState
        = scanDirectory FSEntries.nil (List.replicate 4094 100)
            { freshScanState with errors := freshScanState.errors
                ++ [ScanError.pathTooLong [97]] }) ∧
    (¬((List.replicate 4094 100 : Str).length + ([97] : Str).length + 2 > MAX_PATH) →
      scanDirectory (FSEntries.cons [97] (FSTree.file 7) FSEntries.nil)
          (List.replicate 4094 100) freshScanState
        = scanDirectory FSEntries.nil (List.replicate 4094 100)
            (scanFile (FSTree.file 7) (List.replicate 4094 100 ++ [47] ++ [97])
              freshScanState)) :=
  ⟨by decide,
    long_path_reported_and_skipped (List.replicate 4094 100) [97]
      (FSTree.file 7) FSEntries.nil freshScanState (by decide)⟩
